import Mathlib

/-!
# Verification of the tableau Simplex solver

Shallow embedding of the repository's linear-programming core
(`solveLinearProgram` and `runSimplexIterations`) over exact rationals.
JS numbers are modelled as `ℚ`; the tolerance constants `1e-9` / `1e-5`
and the Big-M constant `100000` are carried over literally.

Aliasing model: in the source each emitted trace step stores
`coefficients: matrix[r]`, i.e. a reference to the live row array, not a
copy (the helper `cloneMatrix` exists but is never invoked).  Within one
engine run the rows of the matrix are only mutated element-wise and never
replaced, so the object identity of the row stored in a step coincides
with the row index.  The embedding therefore records the row index in the
`coefficients` field of a step row; dereferencing it against the matrix
at a later time (`readRowRef`) yields the values the aliased JS array
holds at that time.
-/

namespace LP

/-- Matrices are lists of rows of rationals, row 0 being the objective row. -/
abbrev Mat := List (List ℚ)

/-- Optimization direction (`'MAX' | 'MIN'`). -/
inductive OptimizationType where
  | MAX
  | MIN
deriving DecidableEq, Repr

/-- Constraint relation (`'<=' | '>=' | '='`). -/
inductive Relation where
  | le
  | ge
  | eq
deriving DecidableEq, Repr

/-- A single constraint (`Constraint` in `types.ts`). -/
structure Constraint where
  id : String := ""
  coefficients : List ℚ
  relation : Relation
  rhs : ℚ
deriving DecidableEq, Repr

/-- Solver method (`'SIMPLEX' | 'BIG_M' | 'TWO_PHASE'`). -/
inductive SolverMethod where
  | SIMPLEX
  | BIG_M
  | TWO_PHASE
deriving DecidableEq, Repr

/-- Result status (`'OPTIMAL' | 'UNBOUNDED' | 'INFEASIBLE' | 'ERROR'`). -/
inductive Status where
  | OPTIMAL
  | UNBOUNDED
  | INFEASIBLE
  | ERROR
deriving DecidableEq, Repr

/-- One displayed tableau row inside a trace step (`TableauRow`).
`coefficients` holds the *reference* to the live matrix row (see the
aliasing model above); `rhs` is a copied scalar. -/
structure TableauRowRec where
  basicVar : String
  coefficients : Nat
  rhs : ℚ
deriving DecidableEq, Repr

/-- A trace step (`TableauStep`). -/
structure TableauStep where
  stepIndex : Nat
  description : String
  tableau : List TableauRowRec
  headers : List String
  basicVars : List String
  pivotRow : Option Nat
  pivotCol : Option Nat
  enteringVar : Option String
  leavingVar : Option String
  isPhase1 : Bool
  phase : Nat
deriving DecidableEq, Repr

/-- The solver's result record (`SolveResult`). -/
structure SolveResult where
  steps : List TableauStep
  finalValues : List (String × ℚ)
  zValue : ℚ
  status : Status
  errorMessage : Option String
deriving DecidableEq, Repr

/-- The numeric tolerance `1e-9` used by the pivot engine. -/
def tol : ℚ := 1 / 1000000000

/-- The feasibility tolerance `1e-5` used by the orchestration. -/
def feasTol : ℚ := 1 / 100000

/-- The Big-M penalty constant `M_VAL = 100000`. -/
def M_VAL : ℚ := 100000

/-- Read the matrix cell `matrix[r][c]` (`0` outside the allocated area,
matching the fact that in-bounds runs never read outside). -/
def getCell (m : Mat) (r c : Nat) : ℚ := (m.getD r []).getD c 0

/-- Write the matrix cell `matrix[r][c] = v`. -/
def setCell (m : Mat) (r c : Nat) (v : ℚ) : Mat :=
  m.set r ((m.getD r []).set c v)

/-- `cloneMatrix` from the source (defined there but never invoked by the
solver): on values it is the identity; its sole purpose in JS is to break
aliasing, which the embedding tracks through row references instead. -/
def cloneMatrix (matrix : Mat) : Mat := matrix.map (fun row => row)

/-- Dereference a step row's `coefficients` field against a matrix: the
values the aliased row array holds when the matrix is in state `m`. -/
def readRowRef (m : Mat) (ref : Nat) : List ℚ := m.getD ref []

/-- The source's `h.startsWith('a')`: a one-character prefix test, modelled
as equality of the first character (kernel-reducible, unlike
`String.startsWith`). -/
def startsWithChar (s : String) (c : Char) : Bool := s.data.head? == some c

/-- JS-object style update of the `finalValues` record: overwrite the
binding when the key is present, append it otherwise. -/
def recordSet (kvs : List (String × ℚ)) (k : String) (v : ℚ) : List (String × ℚ) :=
  if kvs.any (fun p => p.1 = k) then
    kvs.map (fun p => if p.1 = k then (k, v) else p)
  else kvs ++ [(k, v)]

/-! ## The pivot engine (`runSimplexIterations`) -/

/-- One step of the entering-variable scan: keep the column if its
objective-row entry is strictly below the minimum found so far. -/
def enteringStep (row0 : List ℚ) (acc : Int × ℚ) (c : Nat) : Int × ℚ :=
  if row0.getD c 0 < acc.2 then ((c : Int), row0.getD c 0) else acc

/-- Entering-variable scan (source lines 329–337): walk the objective-row
entries at columns `1 .. colCount-2`, keeping the most negative value
strictly below `-1e-9`; `-1` marks "none found". -/
def selectEntering (row0 : List ℚ) (colCount : Nat) : Int × ℚ :=
  (List.range' 1 (colCount - 2)).foldl (enteringStep row0) (-1, -tol)

/-- One step of the ratio test: a row whose entry in the entering column
exceeds `1e-9` replaces the current candidate iff its ratio is strictly
smaller (so exact ties keep the earlier row). -/
def leavingStep (m : Mat) (enteringCol rhsCol : Nat) (acc : Int × Option ℚ)
    (r : Nat) : Int × Option ℚ :=
  let pivotVal := getCell m r enteringCol
  if tol < pivotVal then
    let ratio := getCell m r rhsCol / pivotVal
    match acc.2 with
    | none => ((r : Int), some ratio)
    | some mr => if ratio < mr then ((r : Int), some ratio) else acc
  else acc

/-- Ratio test (source lines 354–366): among constraint rows whose entry in
the entering column exceeds `1e-9`, keep the first row attaining the
minimal ratio `RHS / entry`; `none` plays the role of `Infinity`. -/
def selectLeaving (m : Mat) (enteringCol rowCount rhsCol : Nat) : Int × Option ℚ :=
  (List.range' 1 (rowCount - 1)).foldl (leavingStep m enteringCol rhsCol) (-1, none)

/-- The leaving row divided entry-wise by the pivot value
(source lines 401–404). -/
def normalizedPivotRow (m : Mat) (leavingRow enteringCol colCount : Nat) : List ℚ :=
  (List.range colCount).map
    (fun c => getCell m leavingRow c / getCell m leavingRow enteringCol)

/-- Row elimination for one row `r` (source lines 407–416): unless `r` is
the leaving row, subtract `factor × npr` from it when the factor
`matrix[r][enteringCol]` has absolute value above `1e-9`. -/
def elimStep (leavingRow enteringCol colCount : Nat) (npr : List ℚ)
    (acc : Mat) (r : Nat) : Mat :=
  if r = leavingRow then acc
  else if tol < |getCell acc r enteringCol| then
    acc.set r ((List.range colCount).map
      (fun c => getCell acc r c - getCell acc r enteringCol * npr.getD c 0))
  else acc

/-- The pivot operation (source lines 399–416): normalize the leaving row by
the pivot value, then run the elimination over all rows. -/
def pivotOp (m : Mat) (leavingRow enteringCol colCount : Nat) : Mat :=
  (List.range (m.set leavingRow
      (normalizedPivotRow m leavingRow enteringCol colCount)).length).foldl
    (elimStep leavingRow enteringCol colCount
      (normalizedPivotRow m leavingRow enteringCol colCount))
    (m.set leavingRow (normalizedPivotRow m leavingRow enteringCol colCount))

/-- Snapshot of the current tableau rows pushed at the top of each
iteration (source lines 318–325).  The `coefficients` field records the
row reference (see the aliasing model). -/
def mkRowRecs (m : Mat) (headers : List String) (basis : List Nat)
    (phase rowCount rhsCol : Nat) : List TableauRowRec :=
  (List.range rowCount).map (fun r =>
    { basicVar := if r = 0 then (if phase = 1 then "W" else "Z")
                  else headers.getD (basis.getD (r - 1) 0) ""
      coefficients := r
      rhs := getCell m r rhsCol })

/-- Description of the terminal optimal step. -/
def optimalDesc (phase : Nat) : String :=
  "Solución Óptima encontrada (" ++
    (if 0 < phase then "Fase " ++ toString phase else "Final") ++ ")."

/-- Description of the terminal unbounded step. -/
def unboundedDesc (name : String) : String :=
  "Solución no acotada detectada. Variable entrante " ++ name ++
    " no tiene pivote positivo."

/-- Description of a pivot iteration step. -/
def pivotDesc (iter : Nat) (ename lname : String) (lr ec : Nat) : String :=
  "Iteración " ++ toString (iter + 1) ++ ": Entra " ++ ename ++ ", Sale " ++
    lname ++ ". Pivote en fila " ++ toString lr ++ ", col " ++ toString ec ++ "."

/-- A terminal step record (no pivot data). -/
def mkTerminalStep (desc : String) (rows : List TableauRowRec)
    (headers : List String) (basis : List Nat) (phase stepIndex : Nat) : TableauStep :=
  { stepIndex := stepIndex
    description := desc
    tableau := rows
    headers := headers
    basicVars := basis.map (fun i => headers.getD i "")
    pivotRow := none
    pivotCol := none
    enteringVar := none
    leavingVar := none
    isPhase1 := phase = 1
    phase := phase }

/-- A pivot iteration step record. -/
def mkPivotStep (desc : String) (rows : List TableauRowRec)
    (headers : List String) (basis : List Nat) (lr ec : Nat)
    (ename lname : String) (phase stepIndex : Nat) : TableauStep :=
  { stepIndex := stepIndex
    description := desc
    tableau := rows
    headers := headers
    basicVars := basis.map (fun i => headers.getD i "")
    pivotRow := some lr
    pivotCol := some ec
    enteringVar := some ename
    leavingVar := some lname
    isPhase1 := phase = 1
    phase := phase }

/-- The engine's mutable state: the tableau, the basis and the trace list,
all mutated in place by the source. -/
structure EngineState where
  matrix : Mat
  basis : List Nat
  steps : List TableauStep
deriving DecidableEq, Repr

/-- The entering column of the current iteration (`enteringCol`, read as a
natural number once it is known not to be `-1`). -/
def theEnteringCol (colCount : Nat) (s : EngineState) : Nat :=
  (selectEntering (s.matrix.getD 0 []) colCount).1.toNat

/-- The leaving row of the current iteration (`leavingRow`, read as a
natural number once it is known not to be `-1`). -/
def theLeavingRow (colCount rowCount rhsCol : Nat) (s : EngineState) : Nat :=
  (selectLeaving s.matrix (theEnteringCol colCount s) rowCount rhsCol).1.toNat

/-- The state after one full pivot pass (source lines 383–421): the
iteration trace step is appended, the pivot operation is applied in place,
and the leaving row's basis entry becomes the entering column. -/
def pivotState (headers : List String) (phase colCount rowCount rhsCol iter : Nat)
    (s : EngineState) : EngineState :=
  let ec := theEnteringCol colCount s
  let lr := theLeavingRow colCount rowCount rhsCol s
  let ename := headers.getD ec ""
  let lname := headers.getD (s.basis.getD (lr - 1) 0) ""
  ⟨pivotOp s.matrix lr ec colCount,
   s.basis.set (lr - 1) ec,
   s.steps ++
     [mkPivotStep (pivotDesc iter ename lname lr ec)
       (mkRowRecs s.matrix headers s.basis phase rowCount rhsCol)
       headers s.basis lr ec ename lname phase (s.steps.length + 1)]⟩

/-- One `while` pass of `runSimplexIterations`, recursing on the remaining
fuel (`maxIter - iter`); fuel `0` is the loop exit, returning `UNBOUNDED`
(source line 423). -/
def runSimplexAux (headers : List String) (phase colCount rowCount rhsCol : Nat) :
    Nat → Nat → EngineState → Status × EngineState
  | 0, _, s => (Status.UNBOUNDED, s)
  | fuel + 1, iter, s =>
    let rows := mkRowRecs s.matrix headers s.basis phase rowCount rhsCol
    let sel := selectEntering (s.matrix.getD 0 []) colCount
    if sel.1 = -1 then
      (Status.OPTIMAL,
        { s with steps := s.steps ++
            [mkTerminalStep (optimalDesc phase) rows headers s.basis phase
              (s.steps.length + 1)] })
    else
      let ec := sel.1.toNat
      let lsel := selectLeaving s.matrix ec rowCount rhsCol
      let ename := headers.getD ec ""
      if lsel.1 = -1 then
        (Status.UNBOUNDED,
          { s with steps := s.steps ++
              [mkTerminalStep (unboundedDesc ename) rows headers s.basis phase
                (s.steps.length + 1)] })
      else
        runSimplexAux headers phase colCount rowCount rhsCol fuel (iter + 1)
          (pivotState headers phase colCount rowCount rhsCol iter s)

/-- `runSimplexIterations(matrix, headers, basis, steps, phase)`:
the iteration loop with `maxIter = 50`. -/
def runSimplexIterations (m : Mat) (headers : List String) (basis : List Nat)
    (steps : List TableauStep) (phase : Nat) : Status × EngineState :=
  let colCount := (m.getD 0 []).length
  runSimplexAux headers phase colCount m.length (colCount - 1) 50 0 ⟨m, basis, steps⟩

/-! ## The problem normalizer (source lines 27–118) -/

/-- Slack-variable names, one `s(i+1)` per `<=` constraint. -/
def slackVars (cs : List Constraint) : List String :=
  cs.enum.filterMap (fun p =>
    if p.2.relation = Relation.le then some ("s" ++ toString (p.1 + 1)) else none)

/-- Surplus-variable names, one `e(i+1)` per `>=` constraint. -/
def surplusVars (cs : List Constraint) : List String :=
  cs.enum.filterMap (fun p =>
    if p.2.relation = Relation.ge then some ("e" ++ toString (p.1 + 1)) else none)

/-- Artificial-variable names, one `a(i+1)` per `>=` or `=` constraint. -/
def artificialVars (cs : List Constraint) : List String :=
  cs.enum.filterMap (fun p =>
    if p.2.relation = Relation.ge ∨ p.2.relation = Relation.eq then
      some ("a" ++ toString (p.1 + 1))
    else none)

/-- The full column header list:
`Z, x1..xn, slacks, surpluses, artificials, LD`. -/
def buildHeaders (numDecisionVars : Nat) (cs : List Constraint) : List String :=
  ["Z"] ++ (List.range numDecisionVars).map (fun i => "x" ++ toString (i + 1)) ++
    slackVars cs ++ surplusVars cs ++ artificialVars cs ++ ["LD"]

/-- State of the constraint-filling loop: the matrix being written, the
initial basis, and the running slack / surplus / artificial column cursors. -/
structure FillState where
  m : Mat
  basis : List Nat
  sIdx : Nat
  eIdx : Nat
  aIdx : Nat
deriving Repr

/-- Fill one constraint row (source lines 72–99): copy the decision
coefficients, set the RHS, then place the slack / surplus / artificial
unit entries and record the row's initial basic column. -/
def fillConstraint (rhsCol : Nat) (st : FillState) (p : Nat × Constraint) : FillState :=
  let r := p.1 + 1
  let c := p.2
  let m1 := c.coefficients.enum.foldl
    (fun acc q => setCell acc r (q.1 + 1) q.2) st.m
  let m2 := setCell m1 r rhsCol c.rhs
  match c.relation with
  | Relation.le =>
    { st with m := setCell m2 r st.sIdx 1,
              basis := st.basis ++ [st.sIdx], sIdx := st.sIdx + 1 }
  | Relation.ge =>
    { st with m := setCell (setCell m2 r st.eIdx (-1)) r st.aIdx 1,
              basis := st.basis ++ [st.aIdx], eIdx := st.eIdx + 1, aIdx := st.aIdx + 1 }
  | Relation.eq =>
    { st with m := setCell m2 r st.aIdx 1,
              basis := st.basis ++ [st.aIdx], aIdx := st.aIdx + 1 }

/-- Build the initial tableau and basis (source lines 62–118): the zero
matrix, the constraint rows, and the objective row `Z = 1` with `-c`
(maximization) or `+c` (minimization) in the decision columns. -/
def buildInitialTableau (ty : OptimizationType) (objCoeffs : List ℚ)
    (cs : List Constraint) : Mat × List Nat :=
  let numDecisionVars := objCoeffs.length
  let headers := buildHeaders numDecisionVars cs
  let colCount := headers.length
  let rhsCol := colCount - 1
  let numRows := cs.length + 1
  let zero : Mat := List.replicate numRows (List.replicate colCount 0)
  let sIdx0 := 1 + numDecisionVars
  let eIdx0 := sIdx0 + (slackVars cs).length
  let aIdx0 := eIdx0 + (surplusVars cs).length
  let filled := cs.enum.foldl (fillConstraint rhsCol) ⟨zero, [], sIdx0, eIdx0, aIdx0⟩
  let mObj0 := setCell filled.m 0 0 1
  let mObj := objCoeffs.enum.foldl
    (fun acc q =>
      setCell acc 0 (q.1 + 1) (if ty = OptimizationType.MIN then q.2 else -q.2))
    mObj0
  (mObj, filled.basis)

/-- Phase-1 preparation of the objective row (source lines 127–169):
replace row 0 by the auxiliary objective (`Z* = 1`, `+1` in every
artificial column) and then, for every artificial column, subtract each
constraint row holding an exact `1` there from row 0. -/
def phase1Setup (headers : List String) (m : Mat) : Mat :=
  let colCount := headers.length
  let numRows := m.length
  let row0 := (List.replicate colCount (0 : ℚ)).set 0 1
  let m0 := m.set 0 row0
  let artIndices := headers.enum.filterMap
    (fun p => if startsWithChar p.2 'a' then some p.1 else none)
  let m1 := artIndices.foldl (fun acc i => setCell acc 0 i 1) m0
  artIndices.foldl
    (fun acc artCol =>
      (List.range' 1 (numRows - 1)).foldl
        (fun acc2 r =>
          if getCell acc2 r artCol = 1 then
            acc2.set 0 ((List.range colCount).map
              (fun c => getCell acc2 0 c - getCell acc2 r c))
          else acc2)
        acc)
    m1

/-- Big-M preparation of the objective row (source lines 225–243): write
`M_VAL` into every artificial column of row 0, then subtract
`M_VAL × row` for each constraint row holding an exact `1` in an
artificial column. -/
def bigMSetup (headers : List String) (m : Mat) : Mat :=
  let colCount := headers.length
  let numRows := m.length
  let artIndices := headers.enum.filterMap
    (fun p => if startsWithChar p.2 'a' then some p.1 else none)
  let m1 := artIndices.foldl (fun acc i => setCell acc 0 i M_VAL) m
  artIndices.foldl
    (fun acc artCol =>
      (List.range' 1 (numRows - 1)).foldl
        (fun acc2 r =>
          if getCell acc2 r artCol = 1 then
            acc2.set 0 ((List.range colCount).map
              (fun c => getCell acc2 0 c - M_VAL * getCell acc2 r c))
          else acc2)
        acc)
    m1

/-- Phase-2 preparation (source lines 185–203): restore the saved true
objective row, then for every basic variable whose objective coefficient
has absolute value above `1e-9`, subtract `coefficient × basicRow`. -/
def phase2Restore (m : Mat) (originalObjRow : List ℚ) (basis : List Nat)
    (colCount : Nat) : Mat :=
  let m0 := m.set 0 originalObjRow
  basis.enum.foldl
    (fun acc p =>
      let row := p.1 + 1
      let basisCoeffInObj := getCell acc 0 p.2
      if tol < |basisCoeffInObj| then
        acc.set 0 ((List.range colCount).map
          (fun c => getCell acc 0 c - basisCoeffInObj * getCell acc row c))
      else acc)
    m0

/-- Big-M residual-artificial check (source lines 250–254): does any basis
entry name an `a…` variable whose row's RHS value exceeds `1e-5`? -/
def artInBasisCheck (headers : List String) (basis : List Nat) (m : Mat)
    (rhsCol : Nat) : Bool :=
  basis.enum.any (fun p =>
    startsWithChar (headers.getD p.2 "") 'a' &&
      decide (feasTol < getCell m (p.1 + 1) rhsCol))

/-- Initial `finalValues` record: every non-`Z`, non-`LD` header set to 0
in insertion order (source line 272). -/
def initValues (headers : List String) : List (String × ℚ) :=
  ((headers.drop 1).dropLast).foldl (fun acc h => recordSet acc h 0) []

/-- Final variable extraction (source lines 270–278): overwrite the basic
variables' values with their rows' RHS entries. -/
def extractValues (headers : List String) (basis : List Nat) (m : Mat)
    (rhsCol : Nat) : List (String × ℚ) :=
  basis.enum.foldl
    (fun acc p => recordSet acc (headers.getD p.2 "") (getCell m (p.1 + 1) rhsCol))
    (initValues headers)

/-- The value returned by the `catch` handler (source line 297). -/
def errorResult : SolveResult :=
  { steps := [], finalValues := [], zValue := 0, status := Status.ERROR,
    errorMessage := some "Error interno de cálculo" }

/-- The OPTIMAL-path result construction (source lines 269–293). -/
def optimalResult (ty : OptimizationType) (headers : List String)
    (s : EngineState) (rhsCol : Nat) : SolveResult :=
  { steps := s.steps
    finalValues := extractValues headers s.basis s.matrix rhsCol
    zValue := if ty = OptimizationType.MIN then -(getCell s.matrix 0 rhsCol)
              else getCell s.matrix 0 rhsCol
    status := Status.OPTIMAL
    errorMessage := none }

/-- `solveLinearProgram(method, type, objCoeffs, constraints)`
(source lines 17–299).  The `try` body never throws in the embedding, so
the `catch` branch (`errorResult`) is unreachable. -/
def solveLinearProgram (method : SolverMethod) (ty : OptimizationType)
    (objCoeffs : List ℚ) (constraints : List Constraint) : SolveResult :=
  let headers := buildHeaders objCoeffs.length constraints
  let colCount := headers.length
  let rhsCol := colCount - 1
  let built := buildInitialTableau ty objCoeffs constraints
  let matrix := built.1
  let initialBasis := built.2
  if method = SolverMethod.TWO_PHASE ∧ artificialVars constraints ≠ [] then
    let originalObjRow := matrix.getD 0 []
    let m1 := phase1Setup headers matrix
    let r1 := runSimplexIterations m1 headers initialBasis [] 1
    if r1.1 = Status.UNBOUNDED then
      { steps := r1.2.steps, finalValues := [], zValue := 0,
        status := Status.UNBOUNDED, errorMessage := none }
    else if feasTol < |getCell r1.2.matrix 0 rhsCol| then
      { steps := r1.2.steps, finalValues := [], zValue := 0,
        status := Status.INFEASIBLE, errorMessage := none }
    else
      let m2 := phase2Restore r1.2.matrix originalObjRow r1.2.basis colCount
      let r2 := runSimplexIterations m2 headers r1.2.basis r1.2.steps 2
      if r2.1 ≠ Status.OPTIMAL then
        { steps := r2.2.steps, finalValues := [], zValue := 0,
          status := r2.1, errorMessage := none }
      else optimalResult ty headers r2.2 rhsCol
  else if method = SolverMethod.BIG_M ∧ artificialVars constraints ≠ [] then
    let mM := bigMSetup headers matrix
    let rM := runSimplexIterations mM headers initialBasis [] 0
    if rM.1 ≠ Status.OPTIMAL then
      { steps := rM.2.steps, finalValues := [], zValue := 0,
        status := rM.1, errorMessage := none }
    else if artInBasisCheck headers rM.2.basis rM.2.matrix rhsCol then
      { steps := rM.2.steps, finalValues := [], zValue := 0,
        status := Status.INFEASIBLE, errorMessage := none }
    else optimalResult ty headers rM.2 rhsCol
  else
    let rS := runSimplexIterations matrix headers initialBasis [] 0
    if rS.1 ≠ Status.OPTIMAL then
      { steps := rS.2.steps, finalValues := [], zValue := 0,
        status := rS.1, errorMessage := none }
    else optimalResult ty headers rS.2 rhsCol

/-!  ## General lemmas about the engine  -/

attribute [local semireducible] Rat.mul Rat.inv Rat.add Rat.sub Rat.ofScientific

/-- Invariant of the entering-variable fold: the running minimum only
decreases, it bounds every scanned entry from below, and it either keeps
the initial accumulator or holds the value of some scanned column. -/
lemma enteringStep_foldl_spec (row0 : List ℚ) :
    ∀ (l : List Nat) (acc : Int × ℚ),
      (l.foldl (enteringStep row0) acc).2 ≤ acc.2 ∧
      (∀ c ∈ l, (l.foldl (enteringStep row0) acc).2 ≤ row0.getD c 0) ∧
      (l.foldl (enteringStep row0) acc = acc ∨
        ∃ c ∈ l, (l.foldl (enteringStep row0) acc).1 = (c : Int) ∧
          (l.foldl (enteringStep row0) acc).2 = row0.getD c 0 ∧
          (l.foldl (enteringStep row0) acc).2 < acc.2) := by
  intro l
  induction l with
  | nil => intro acc; simp
  | cons c l ih =>
    intro acc
    simp only [List.foldl_cons]
    by_cases h : row0.getD c 0 < acc.2
    · have hstep : enteringStep row0 acc c = ((c : Int), row0.getD c 0) := by
        unfold enteringStep; rw [if_pos h]
      rw [hstep]
      obtain ⟨h1, h2, h3⟩ := ih ((c : Int), row0.getD c 0)
      refine ⟨le_of_lt (lt_of_le_of_lt h1 h), ?_, ?_⟩
      · intro c' hc'
        rcases List.mem_cons.mp hc' with rfl | hc'
        · exact h1
        · exact h2 c' hc'
      · rcases h3 with h3 | ⟨c', hc', e1, e2, e3⟩
        · exact Or.inr ⟨c, List.mem_cons_self c l, by rw [h3], by rw [h3],
            by rw [h3]; exact h⟩
        · exact Or.inr ⟨c', List.mem_cons_of_mem c hc', e1, e2, lt_trans e3 h⟩
    · have hstep : enteringStep row0 acc c = acc := by
        unfold enteringStep; rw [if_neg h]
      rw [hstep]
      obtain ⟨h1, h2, h3⟩ := ih acc
      refine ⟨h1, ?_, ?_⟩
      · intro c' hc'
        rcases List.mem_cons.mp hc' with rfl | hc'
        · exact le_trans h1 (le_of_not_lt h)
        · exact h2 c' hc'
      · rcases h3 with h3 | ⟨c', hc', e1, e2, e3⟩
        · exact Or.inl h3
        · exact Or.inr ⟨c', List.mem_cons_of_mem c hc', e1, e2, e3⟩

/-- Bounds form of membership in the scanned column range. -/
lemma mem_scan_range {c n : Nat} :
    c ∈ List.range' 1 (n - 2) ↔ 1 ≤ c ∧ c < n - 1 := by
  rw [List.mem_range'_1]
  omega

/--
**C1.** In every iteration of the pivot engine, the entering column is
chosen by scanning the objective-row coefficients over the non-RHS columns
`1 .. colCount-2`, selecting a column whose value is strictly below `-1e-9`
and minimal among all scanned columns; and if no such column exists the
iteration returns `OPTIMAL`, appending only the terminal optimal step and
leaving the tableau and basis unchanged.
-/
theorem C1_entering_selection :
    (∀ (row0 : List ℚ) (colCount : Nat),
      ((selectEntering row0 colCount).1 ≠ -1 →
        ∃ c : Nat, (selectEntering row0 colCount).1 = (c : Int) ∧
          1 ≤ c ∧ c < colCount - 1 ∧ row0.getD c 0 < -tol ∧
          (selectEntering row0 colCount).2 = row0.getD c 0 ∧
          ∀ c' : Nat, 1 ≤ c' → c' < colCount - 1 → row0.getD c 0 ≤ row0.getD c' 0) ∧
      ((selectEntering row0 colCount).1 = -1 →
        ∀ c' : Nat, 1 ≤ c' → c' < colCount - 1 → -tol ≤ row0.getD c' 0)) ∧
    (∀ (headers : List String) (phase colCount rowCount rhsCol fuel iter : Nat)
        (s : EngineState),
      (selectEntering (s.matrix.getD 0 []) colCount).1 = -1 →
      runSimplexAux headers phase colCount rowCount rhsCol (fuel + 1) iter s =
        (Status.OPTIMAL,
          { matrix := s.matrix, basis := s.basis,
            steps := s.steps ++
              [mkTerminalStep (optimalDesc phase)
                (mkRowRecs s.matrix headers s.basis phase rowCount rhsCol)
                headers s.basis phase (s.steps.length + 1)] })) := by
  constructor
  · intro row0 colCount
    obtain ⟨h1, h2, h3⟩ :=
      enteringStep_foldl_spec row0 (List.range' 1 (colCount - 2)) (-1, -tol)
    constructor
    · intro hne
      unfold selectEntering at hne ⊢
      rcases h3 with h3 | ⟨c, hc, e1, e2, e3⟩
      · rw [h3] at hne; exact absurd rfl hne
      · obtain ⟨hc1, hc2⟩ := mem_scan_range.mp hc
        refine ⟨c, e1, hc1, hc2, ?_, e2, ?_⟩
        · rw [← e2]; exact e3
        · intro c' h1' h2'
          rw [← e2]; exact h2 c' (mem_scan_range.mpr ⟨h1', h2'⟩)
    · intro heq c' h1' h2'
      unfold selectEntering at heq
      rcases h3 with h3 | ⟨c, hc, e1, e2, e3⟩
      · have hle := h2 c' (mem_scan_range.mpr ⟨h1', h2'⟩)
        rw [h3] at hle; exact hle
      · rw [e1] at heq; omega
  · intro headers phase colCount rowCount rhsCol fuel iter s h
    simp only [runSimplexAux]
    rw [if_pos h]

/-- Witness for C1 at concrete inputs: the scan of `[1, -2, -1, 0, 0]`
selects a most-negative column, and an iteration whose objective row has
no negative entry returns `OPTIMAL` untouched. -/
theorem C1_entering_selection_witness :
    (∃ c : Nat, (selectEntering [1, -2, -1, 0, 0] 5).1 = (c : Int) ∧
      1 ≤ c ∧ c < 5 - 1 ∧ [(1 : ℚ), -2, -1, 0, 0].getD c 0 < -tol ∧
      (selectEntering [1, -2, -1, 0, 0] 5).2 = [(1 : ℚ), -2, -1, 0, 0].getD c 0 ∧
      ∀ c' : Nat, 1 ≤ c' → c' < 5 - 1 →
        [(1 : ℚ), -2, -1, 0, 0].getD c 0 ≤ [(1 : ℚ), -2, -1, 0, 0].getD c' 0) ∧
    runSimplexAux ["Z", "x1", "LD"] 0 3 2 2 1 0 ⟨[[1, 1, 0], [0, 1, 2]], [1], []⟩ =
      (Status.OPTIMAL, ⟨[[1, 1, 0], [0, 1, 2]], [1],
        [mkTerminalStep (optimalDesc 0)
          (mkRowRecs [[1, 1, 0], [0, 1, 2]] ["Z", "x1", "LD"] [1] 0 2 2)
          ["Z", "x1", "LD"] [1] 0 1]⟩) := by
  constructor
  · exact (C1_entering_selection.1 [1, -2, -1, 0, 0] 5).1 (by decide)
  · exact C1_entering_selection.2 ["Z", "x1", "LD"] 0 3 2 2 0 0
      ⟨[[1, 1, 0], [0, 1, 2]], [1], []⟩ (by decide)

/-- An ineligible row leaves the ratio-test accumulator unchanged. -/
lemma leavingStep_skip (m : Mat) (ec rhsCol r : Nat) (acc : Int × Option ℚ)
    (h : ¬ tol < getCell m r ec) : leavingStep m ec rhsCol acc r = acc := by
  unfold leavingStep; simp only [if_neg h]

/-- The first eligible row becomes the candidate. -/
lemma leavingStep_first (m : Mat) (ec rhsCol r : Nat) (x : Int)
    (h : tol < getCell m r ec) :
    leavingStep m ec rhsCol (x, none) r =
      ((r : Int), some (getCell m r rhsCol / getCell m r ec)) := by
  unfold leavingStep; simp only [if_pos h]

/-- An eligible row with strictly smaller ratio replaces the candidate. -/
lemma leavingStep_better (m : Mat) (ec rhsCol r : Nat) (x : Int) (mr : ℚ)
    (h : tol < getCell m r ec) (hlt : getCell m r rhsCol / getCell m r ec < mr) :
    leavingStep m ec rhsCol (x, some mr) r =
      ((r : Int), some (getCell m r rhsCol / getCell m r ec)) := by
  unfold leavingStep; simp only [if_pos h, if_pos hlt]

/-- An eligible row without strictly smaller ratio keeps the candidate
(exact ties keep the earlier row). -/
lemma leavingStep_keep (m : Mat) (ec rhsCol r : Nat) (x : Int) (mr : ℚ)
    (h : tol < getCell m r ec) (hlt : ¬ getCell m r rhsCol / getCell m r ec < mr) :
    leavingStep m ec rhsCol (x, some mr) r = (x, some mr) := by
  unfold leavingStep; simp only [if_pos h, if_neg hlt]

/-- Invariant of the ratio-test fold over the ascending row range: either
no eligible row was seen, or the result holds the first row attaining the
minimal ratio among all eligible rows. -/
lemma leavingStep_foldl_spec (m : Mat) (ec rhsCol : Nat) :
    ∀ n : Nat,
      ((List.range' 1 n).foldl (leavingStep m ec rhsCol) (-1, none) = (-1, none) ∧
        ∀ r ∈ List.range' 1 n, ¬ tol < getCell m r ec) ∨
      (∃ r : Nat, r ∈ List.range' 1 n ∧ tol < getCell m r ec ∧
        ((List.range' 1 n).foldl (leavingStep m ec rhsCol) (-1, none)).1 = (r : Int) ∧
        ((List.range' 1 n).foldl (leavingStep m ec rhsCol) (-1, none)).2 =
          some (getCell m r rhsCol / getCell m r ec) ∧
        (∀ r' ∈ List.range' 1 n, tol < getCell m r' ec →
          getCell m r rhsCol / getCell m r ec ≤ getCell m r' rhsCol / getCell m r' ec) ∧
        (∀ r' ∈ List.range' 1 n, tol < getCell m r' ec →
          getCell m r' rhsCol / getCell m r' ec = getCell m r rhsCol / getCell m r ec →
          r ≤ r')) := by
  intro n
  induction n with
  | zero => left; simp
  | succ n ih =>
    rw [List.range'_concat, List.foldl_append, List.foldl_cons, List.foldl_nil,
      one_mul]
    rcases ih with ⟨hres, hall⟩ | ⟨r, hr, helig, h1, h2, hmin, htie⟩
    · rw [hres]
      by_cases htol : tol < getCell m (1 + n) ec
      · rw [leavingStep_first m ec rhsCol (1 + n) (-1) htol]
        right
        refine ⟨1 + n, ?_, htol, rfl, rfl, ?_, ?_⟩
        · exact List.mem_append_right _ (List.mem_singleton.mpr rfl)
        · intro r' hr' helig'
          rcases List.mem_append.mp hr' with hr' | hr'
          · exact absurd helig' (hall r' hr')
          · rcases List.mem_singleton.mp hr' with rfl
            exact le_refl _
        · intro r' hr' helig' _
          rcases List.mem_append.mp hr' with hr' | hr'
          · exact absurd helig' (hall r' hr')
          · rcases List.mem_singleton.mp hr' with rfl
            exact le_refl _
      · rw [leavingStep_skip m ec rhsCol (1 + n) _ htol]
        left
        refine ⟨rfl, ?_⟩
        intro r' hr'
        rcases List.mem_append.mp hr' with hr' | hr'
        · exact hall r' hr'
        · rcases List.mem_singleton.mp hr' with rfl
          exact htol
    · have hacc : (List.range' 1 n).foldl (leavingStep m ec rhsCol) (-1, none) =
          ((r : Int), some (getCell m r rhsCol / getCell m r ec)) := by
        rw [← h1, ← h2]
      rw [hacc]
      by_cases htol : tol < getCell m (1 + n) ec
      · by_cases hlt : getCell m (1 + n) rhsCol / getCell m (1 + n) ec <
            getCell m r rhsCol / getCell m r ec
        · rw [leavingStep_better m ec rhsCol (1 + n) _ _ htol hlt]
          right
          refine ⟨1 + n, ?_, htol, rfl, rfl, ?_, ?_⟩
          · exact List.mem_append_right _ (List.mem_singleton.mpr rfl)
          · intro r' hr' helig'
            rcases List.mem_append.mp hr' with hr' | hr'
            · exact le_of_lt (lt_of_lt_of_le hlt (hmin r' hr' helig'))
            · rcases List.mem_singleton.mp hr' with rfl
              exact le_refl _
          · intro r' hr' helig' heq'
            rcases List.mem_append.mp hr' with hr' | hr'
            · exfalso
              have := hmin r' hr' helig'
              rw [heq'] at this
              exact absurd (lt_of_lt_of_le hlt this) (lt_irrefl _)
            · rcases List.mem_singleton.mp hr' with rfl
              exact le_refl _
        · rw [leavingStep_keep m ec rhsCol (1 + n) _ _ htol hlt]
          right
          refine ⟨r, List.mem_append_left _ hr, helig, rfl, rfl, ?_, ?_⟩
          · intro r' hr' helig'
            rcases List.mem_append.mp hr' with hr' | hr'
            · exact hmin r' hr' helig'
            · rcases List.mem_singleton.mp hr' with rfl
              exact le_of_not_lt hlt
          · intro r' hr' helig' heq'
            rcases List.mem_append.mp hr' with hr' | hr'
            · exact htie r' hr' helig' heq'
            · rcases List.mem_singleton.mp hr' with rfl
              rw [List.mem_range'_1] at hr; omega
      · rw [leavingStep_skip m ec rhsCol (1 + n) _ htol]
        right
        refine ⟨r, List.mem_append_left _ hr, helig, rfl, rfl, ?_, ?_⟩
        · intro r' hr' helig'
          rcases List.mem_append.mp hr' with hr' | hr'
          · exact hmin r' hr' helig'
          · rcases List.mem_singleton.mp hr' with rfl
            exact absurd helig' htol
        · intro r' hr' helig' heq'
          rcases List.mem_append.mp hr' with hr' | hr'
          · exact htie r' hr' helig' heq'
          · rcases List.mem_singleton.mp hr' with rfl
            exact absurd helig' htol

/-- Bounds form of membership in the scanned row range. -/
lemma mem_row_range {r n : Nat} :
    r ∈ List.range' 1 (n - 1) ↔ 1 ≤ r ∧ r < n := by
  rw [List.mem_range'_1]
  omega

/--
**C2.** Once an entering column is selected, the leaving row is chosen
among constraint rows `1 .. rowCount-1` whose entry in the entering column
exceeds `1e-9`, minimizing `RHS / coefficient` with exact ties resolved to
the lowest row index; and if no row qualifies, the iteration returns
`UNBOUNDED`, appending the terminal unbounded step that names the entering
variable, with tableau and basis unchanged.
-/
theorem C2_leaving_selection :
    (∀ (m : Mat) (ec rowCount rhsCol : Nat),
      ((selectLeaving m ec rowCount rhsCol).1 ≠ -1 →
        ∃ r : Nat, (selectLeaving m ec rowCount rhsCol).1 = (r : Int) ∧
          1 ≤ r ∧ r < rowCount ∧ tol < getCell m r ec ∧
          (selectLeaving m ec rowCount rhsCol).2 =
            some (getCell m r rhsCol / getCell m r ec) ∧
          (∀ r' : Nat, 1 ≤ r' → r' < rowCount → tol < getCell m r' ec →
            getCell m r rhsCol / getCell m r ec ≤
              getCell m r' rhsCol / getCell m r' ec) ∧
          (∀ r' : Nat, 1 ≤ r' → r' < rowCount → tol < getCell m r' ec →
            getCell m r' rhsCol / getCell m r' ec =
              getCell m r rhsCol / getCell m r ec → r ≤ r')) ∧
      ((selectLeaving m ec rowCount rhsCol).1 = -1 →
        ∀ r' : Nat, 1 ≤ r' → r' < rowCount → ¬ tol < getCell m r' ec)) ∧
    (∀ (headers : List String) (phase colCount rowCount rhsCol fuel iter : Nat)
        (s : EngineState),
      (selectEntering (s.matrix.getD 0 []) colCount).1 ≠ -1 →
      (selectLeaving s.matrix
          (selectEntering (s.matrix.getD 0 []) colCount).1.toNat rowCount rhsCol).1
        = -1 →
      runSimplexAux headers phase colCount rowCount rhsCol (fuel + 1) iter s =
        (Status.UNBOUNDED,
          { matrix := s.matrix, basis := s.basis,
            steps := s.steps ++
              [mkTerminalStep
                (unboundedDesc (headers.getD
                  (selectEntering (s.matrix.getD 0 []) colCount).1.toNat ""))
                (mkRowRecs s.matrix headers s.basis phase rowCount rhsCol)
                headers s.basis phase (s.steps.length + 1)] })) := by
  constructor
  · intro m ec rowCount rhsCol
    have hspec := leavingStep_foldl_spec m ec rhsCol (rowCount - 1)
    constructor
    · intro hne
      unfold selectLeaving at hne ⊢
      rcases hspec with ⟨hres, _⟩ | ⟨r, hr, helig, h1, h2, hmin, htie⟩
      · rw [hres] at hne; exact absurd rfl hne
      · obtain ⟨hr1, hr2⟩ := mem_row_range.mp hr
        refine ⟨r, h1, hr1, hr2, helig, h2, ?_, ?_⟩
        · intro r' ha hb hc
          exact hmin r' (mem_row_range.mpr ⟨ha, hb⟩) hc
        · intro r' ha hb hc hd
          exact htie r' (mem_row_range.mpr ⟨ha, hb⟩) hc hd
    · intro heq r' ha hb
      unfold selectLeaving at heq
      rcases hspec with ⟨_, hall⟩ | ⟨r, _, _, h1, _, _, _⟩
      · exact hall r' (mem_row_range.mpr ⟨ha, hb⟩)
      · rw [h1] at heq; omega
  · intro headers phase colCount rowCount rhsCol fuel iter s h1 h2
    simp only [runSimplexAux]
    rw [if_neg h1, if_pos h2]

/-- Witness for C2 at concrete inputs: on a tableau where rows `1` and `2`
are both eligible, the row of smaller ratio is selected; and an iteration
whose entering column has no positive entry returns `UNBOUNDED` with the
terminal step naming the entering variable. -/
theorem C2_leaving_selection_witness :
    (∃ r : Nat,
      (selectLeaving [[1, -1, 0], [0, 2, 4], [0, 1, 1]] 1 3 2).1 = (r : Int) ∧
      1 ≤ r ∧ r < 3 ∧ tol < getCell [[1, -1, 0], [0, 2, 4], [0, 1, 1]] r 1 ∧
      (selectLeaving [[1, -1, 0], [0, 2, 4], [0, 1, 1]] 1 3 2).2 =
        some (getCell [[1, -1, 0], [0, 2, 4], [0, 1, 1]] r 2 /
          getCell [[1, -1, 0], [0, 2, 4], [0, 1, 1]] r 1) ∧
      (∀ r' : Nat, 1 ≤ r' → r' < 3 →
        tol < getCell [[1, -1, 0], [0, 2, 4], [0, 1, 1]] r' 1 →
        getCell [[1, -1, 0], [0, 2, 4], [0, 1, 1]] r 2 /
            getCell [[1, -1, 0], [0, 2, 4], [0, 1, 1]] r 1 ≤
          getCell [[1, -1, 0], [0, 2, 4], [0, 1, 1]] r' 2 /
            getCell [[1, -1, 0], [0, 2, 4], [0, 1, 1]] r' 1) ∧
      (∀ r' : Nat, 1 ≤ r' → r' < 3 →
        tol < getCell [[1, -1, 0], [0, 2, 4], [0, 1, 1]] r' 1 →
        getCell [[1, -1, 0], [0, 2, 4], [0, 1, 1]] r' 2 /
            getCell [[1, -1, 0], [0, 2, 4], [0, 1, 1]] r' 1 =
          getCell [[1, -1, 0], [0, 2, 4], [0, 1, 1]] r 2 /
            getCell [[1, -1, 0], [0, 2, 4], [0, 1, 1]] r 1 → r ≤ r')) ∧
    runSimplexAux ["Z", "x1", "LD"] 0 3 2 2 1 0
        ⟨[[1, -1, 0], [0, -1, 1]], [2], []⟩ =
      (Status.UNBOUNDED, ⟨[[1, -1, 0], [0, -1, 1]], [2],
        [mkTerminalStep (unboundedDesc "x1")
          (mkRowRecs [[1, -1, 0], [0, -1, 1]] ["Z", "x1", "LD"] [2] 0 2 2)
          ["Z", "x1", "LD"] [2] 0 1]⟩) := by
  constructor
  · exact (C2_leaving_selection.1 [[1, -1, 0], [0, 2, 4], [0, 1, 1]] 1 3 2).1
      (by decide)
  · exact C2_leaving_selection.2 ["Z", "x1", "LD"] 0 3 2 2 0 0
      ⟨[[1, -1, 0], [0, -1, 1]], [2], []⟩ (by decide) (by decide)

/-- A pivot pass appends exactly one trace step. -/
lemma pivotState_steps_length (headers : List String)
    (phase colCount rowCount rhsCol iter : Nat) (s : EngineState) :
    (pivotState headers phase colCount rowCount rhsCol iter s).steps.length =
      s.steps.length + 1 := by
  simp [pivotState]

/-- Exhausted fuel ends the loop with `UNBOUNDED` and an untouched state. -/
lemma runSimplexAux_zero (headers : List String)
    (phase colCount rowCount rhsCol iter : Nat) (s : EngineState) :
    runSimplexAux headers phase colCount rowCount rhsCol 0 iter s =
      (Status.UNBOUNDED, s) := rfl

/-- Each loop pass appends at most one trace step, so a run with `fuel`
remaining passes appends at most `fuel` steps. -/
lemma runSimplexAux_steps_le (headers : List String)
    (phase colCount rowCount rhsCol : Nat) :
    ∀ (fuel iter : Nat) (s : EngineState),
      (runSimplexAux headers phase colCount rowCount rhsCol fuel iter s).2.steps.length
        ≤ s.steps.length + fuel := by
  intro fuel
  induction fuel with
  | zero => intro iter s; simp [runSimplexAux_zero]
  | succ fuel ih =>
    intro iter s
    simp only [runSimplexAux]
    by_cases h1 : (selectEntering (s.matrix.getD 0 []) colCount).1 = -1
    · rw [if_pos h1]
      simp only [List.length_append, List.length_singleton]
      omega
    · rw [if_neg h1]
      by_cases h2 : (selectLeaving s.matrix
          (selectEntering (s.matrix.getD 0 []) colCount).1.toNat rowCount rhsCol).1
          = -1
      · rw [if_pos h2]
        simp only [List.length_append, List.length_singleton]
        omega
      · rw [if_neg h2]
        refine le_trans (ih (iter + 1) _) ?_
        rw [pivotState_steps_length]
        omega

/-- The engine only ever reports `OPTIMAL` or `UNBOUNDED`. -/
lemma runSimplexAux_status (headers : List String)
    (phase colCount rowCount rhsCol : Nat) :
    ∀ (fuel iter : Nat) (s : EngineState),
      (runSimplexAux headers phase colCount rowCount rhsCol fuel iter s).1 =
          Status.OPTIMAL ∨
        (runSimplexAux headers phase colCount rowCount rhsCol fuel iter s).1 =
          Status.UNBOUNDED := by
  intro fuel
  induction fuel with
  | zero => intro iter s; right; rfl
  | succ fuel ih =>
    intro iter s
    simp only [runSimplexAux]
    by_cases h1 : (selectEntering (s.matrix.getD 0 []) colCount).1 = -1
    · rw [if_pos h1]; left; rfl
    · rw [if_neg h1]
      by_cases h2 : (selectLeaving s.matrix
          (selectEntering (s.matrix.getD 0 []) colCount).1.toNat rowCount rhsCol).1
          = -1
      · rw [if_pos h2]; right; rfl
      · rw [if_neg h2]; exact ih (iter + 1) _

/--
**C7.** Every invocation of the pivot engine performs at most 50 loop
passes: `runSimplexIterations` is the loop body run with fuel 50, a run
out of fuel returns `UNBOUNDED` without touching the state, each run
appends at most `fuel` trace steps (hence at most 50 pivot iterations),
and every run terminates with status `OPTIMAL` or `UNBOUNDED`.
-/
theorem C7_iteration_cap :
    (∀ (m : Mat) (headers : List String) (basis : List Nat)
        (steps : List TableauStep) (phase : Nat),
      runSimplexIterations m headers basis steps phase =
        runSimplexAux headers phase ((m.getD 0 []).length) m.length
          ((m.getD 0 []).length - 1) 50 0 ⟨m, basis, steps⟩) ∧
    (∀ (headers : List String) (phase colCount rowCount rhsCol iter : Nat)
        (s : EngineState),
      runSimplexAux headers phase colCount rowCount rhsCol 0 iter s =
        (Status.UNBOUNDED, s)) ∧
    (∀ (headers : List String) (phase colCount rowCount rhsCol fuel iter : Nat)
        (s : EngineState),
      (runSimplexAux headers phase colCount rowCount rhsCol fuel iter s).2.steps.length
        ≤ s.steps.length + fuel) ∧
    (∀ (headers : List String) (phase colCount rowCount rhsCol fuel iter : Nat)
        (s : EngineState),
      (runSimplexAux headers phase colCount rowCount rhsCol fuel iter s).1 =
          Status.OPTIMAL ∨
        (runSimplexAux headers phase colCount rowCount rhsCol fuel iter s).1 =
          Status.UNBOUNDED) :=
  ⟨fun _ _ _ _ _ => rfl,
   fun headers phase colCount rowCount rhsCol iter s =>
     runSimplexAux_zero headers phase colCount rowCount rhsCol iter s,
   fun headers phase colCount rowCount rhsCol fuel iter s =>
     runSimplexAux_steps_le headers phase colCount rowCount rhsCol fuel iter s,
   fun headers phase colCount rowCount rhsCol fuel iter s =>
     runSimplexAux_status headers phase colCount rowCount rhsCol fuel iter s⟩

/-- A description "indicates terminal status": it is the terminal optimal
description or the terminal unbounded description. -/
def DescribesTerminal (d : String) : Prop :=
  (∃ phase : Nat, d = optimalDesc phase) ∨ (∃ name : String, d = unboundedDesc name)

/-- A pivot pass appends exactly one step, and that step carries pivot
data (its `pivotCol` is set). -/
lemma pivotState_steps_shape (headers : List String)
    (phase colCount rowCount rhsCol iter : Nat) (s : EngineState) :
    ∃ P : TableauStep,
      (pivotState headers phase colCount rowCount rhsCol iter s).steps =
        s.steps ++ [P] ∧
      P.pivotCol = some (theEnteringCol colCount s) :=
  ⟨_, rfl, rfl⟩

/-- Shape of the trace appended by the engine: either it ends with a step
whose description indicates terminal status, or the fuel was exhausted, the
run reports `UNBOUNDED`, and every appended step is a pivot step. -/
lemma runSimplexAux_trace_shape (headers : List String)
    (phase colCount rowCount rhsCol : Nat) :
    ∀ (fuel iter : Nat) (s : EngineState),
      ∃ l : List TableauStep,
        (runSimplexAux headers phase colCount rowCount rhsCol fuel iter s).2.steps =
          s.steps ++ l ∧
        ((∃ l0 stp, l = l0 ++ [stp] ∧ DescribesTerminal stp.description) ∨
          ((runSimplexAux headers phase colCount rowCount rhsCol fuel iter s).1 =
              Status.UNBOUNDED ∧ l.length = fuel ∧
            ∀ stp ∈ l, stp.pivotCol.isSome = true)) := by
  intro fuel
  induction fuel with
  | zero =>
    intro iter s
    exact ⟨[], by simp [runSimplexAux_zero], Or.inr ⟨rfl, rfl, by simp⟩⟩
  | succ fuel ih =>
    intro iter s
    simp only [runSimplexAux]
    by_cases h1 : (selectEntering (s.matrix.getD 0 []) colCount).1 = -1
    · rw [if_pos h1]
      refine ⟨[mkTerminalStep (optimalDesc phase)
          (mkRowRecs s.matrix headers s.basis phase rowCount rhsCol)
          headers s.basis phase (s.steps.length + 1)], rfl, Or.inl ?_⟩
      exact ⟨[], _, rfl, Or.inl ⟨phase, rfl⟩⟩
    · rw [if_neg h1]
      by_cases h2 : (selectLeaving s.matrix
          (selectEntering (s.matrix.getD 0 []) colCount).1.toNat rowCount rhsCol).1
          = -1
      · rw [if_pos h2]
        refine ⟨[mkTerminalStep
            (unboundedDesc (headers.getD
              (selectEntering (s.matrix.getD 0 []) colCount).1.toNat ""))
            (mkRowRecs s.matrix headers s.basis phase rowCount rhsCol)
            headers s.basis phase (s.steps.length + 1)], rfl, Or.inl ?_⟩
        exact ⟨[], _, rfl, Or.inr ⟨_, rfl⟩⟩
      · rw [if_neg h2]
        obtain ⟨P, hPsteps, hPcol⟩ :=
          pivotState_steps_shape headers phase colCount rowCount rhsCol iter s
        obtain ⟨l', hsteps, hcase⟩ := ih (iter + 1)
          (pivotState headers phase colCount rowCount rhsCol iter s)
        rw [hPsteps] at hsteps
        refine ⟨P :: l', by rw [hsteps, List.append_assoc, List.singleton_append], ?_⟩
        rcases hcase with ⟨l0, stp, hl, hterm⟩ | ⟨hst, hlen, hall⟩
        · exact Or.inl ⟨P :: l0, stp, by rw [hl, List.cons_append], hterm⟩
        · refine Or.inr ⟨hst, by simp [hlen], ?_⟩
          intro stp hstp
          rcases List.mem_cons.mp hstp with rfl | hstp
          · rw [hPcol]; rfl
          · exact hall stp hstp

/-- A terminal description starts with the letter `S` (both Spanish
terminal messages begin with "Solución"). -/
lemma head_append_left (s t : String) (c : Char) (h : s.data.head? = some c) :
    (s ++ t).data.head? = some c := by
  rw [String.data_append]
  cases hd : s.data with
  | nil => simp [hd] at h
  | cons a as => rw [hd] at h; simpa using h

/-- Every description satisfying `DescribesTerminal` begins with `'S'`. -/
lemma DescribesTerminal_head (d : String) (h : DescribesTerminal d) :
    d.data.head? = some 'S' := by
  rcases h with ⟨ph, rfl⟩ | ⟨nm, rfl⟩
  · unfold optimalDesc
    exact head_append_left _ _ _ (head_append_left _ _ _ (by decide))
  · unfold unboundedDesc
    exact head_append_left _ _ _ (head_append_left _ _ _ (by decide))

/--
**C8 (amended).** Every run of the pivot engine either ends by appending a
terminal step whose description indicates terminal status (optimal or
unbounded), or exhausts its fuel, in which case the run reports
`UNBOUNDED` and every appended step — the final recorded step included —
is a plain pivot iteration step.  In particular `runSimplexIterations`
(fuel 50) can leave a pivot step as the last recorded step.
-/
theorem C8_final_step_amended (m : Mat) (headers : List String)
    (basis : List Nat) (steps : List TableauStep) (phase : Nat) :
    ∃ l : List TableauStep,
      (runSimplexIterations m headers basis steps phase).2.steps = steps ++ l ∧
      ((∃ l0 stp, l = l0 ++ [stp] ∧ DescribesTerminal stp.description) ∨
        ((runSimplexIterations m headers basis steps phase).1 = Status.UNBOUNDED ∧
          l.length = 50 ∧ ∀ stp ∈ l, stp.pivotCol.isSome = true)) :=
  runSimplexAux_trace_shape headers phase ((m.getD 0 []).length) m.length
    ((m.getD 0 []).length - 1) 50 0 ⟨m, basis, steps⟩

/-- Beale's cycling example: maximize
`(3/4)x1 - 150x2 + (1/50)x3 - 6x4` under three `<=` constraints.  Under
the engine's rules (most negative reduced cost, first-row tie break) the
simplex pivots cycle with period 6, so the 50-iteration cap is reached. -/
def bealeConstraints : List Constraint :=
  [{ id := "c1", coefficients := [1/4, -60, -1/25, 9], relation := Relation.le, rhs := 0 },
   { id := "c2", coefficients := [1/2, -90, -1/50, 3], relation := Relation.le, rhs := 0 },
   { id := "c3", coefficients := [0, 0, 1, 0], relation := Relation.le, rhs := 1 }]

/-- The solver's result on Beale's cycling example. -/
def bealeResult : SolveResult :=
  solveLinearProgram SolverMethod.SIMPLEX OptimizationType.MAX
    [3/4, -150, 1/50, -6] bealeConstraints

/-- A placeholder step used only as the default of safe indexing. -/
def dummyStep : TableauStep := mkTerminalStep "" [] [] [] 0 0

set_option maxRecDepth 100000 in
set_option maxHeartbeats 4000000 in
/--
Counterexample to **C8** as stated: on Beale's cycling example the solver
returns a non-empty trace (50 steps) whose final step is the 50th pivot
iteration step — its description announces a pivot, not a terminal
status, and its `pivotCol` is set.
-/
theorem C8_counterexample :
    bealeResult.status = Status.UNBOUNDED ∧
    bealeResult.steps.length = 50 ∧
    (bealeResult.steps.getD 49 dummyStep).pivotCol = some 2 ∧
    (bealeResult.steps.getD 49 dummyStep).description =
      "Iteración 50: Entra x2, Sale s2. Pivote en fila 2, col 2." ∧
    ¬ DescribesTerminal (bealeResult.steps.getD 49 dummyStep).description := by
  have hmain : bealeResult.status = Status.UNBOUNDED ∧
      bealeResult.steps.length = 50 ∧
      (bealeResult.steps.getD 49 dummyStep).pivotCol = some 2 ∧
      (bealeResult.steps.getD 49 dummyStep).description =
        "Iteración 50: Entra x2, Sale s2. Pivote en fila 2, col 2." := by
    decide
  refine ⟨hmain.1, hmain.2.1, hmain.2.2.1, hmain.2.2.2, ?_⟩
  intro h
  have h2 := DescribesTerminal_head _ h
  rw [hmain.2.2.2] at h2
  exact absurd h2 (by decide)

/-! ## Canonical-form invariant (C3) -/

/-- `getD` after `set` at the same in-bounds index. -/
lemma getD_set_self {α : Type} (l : List α) {i : Nat} (h : i < l.length)
    (a d : α) : (l.set i a).getD i d = a := by
  simp [List.getD_eq_getElem?_getD, List.getElem?_set_self, h]

/-- `getD` after `set` at a different index. -/
lemma getD_set_ne {α : Type} (l : List α) {i j : Nat} (h : i ≠ j) (a d : α) :
    (l.set i a).getD j d = l.getD j d := by
  simp [List.getD_eq_getElem?_getD, List.getElem?_set_ne h]

/-- `getD` of a mapped range at an in-bounds index. -/
lemma getD_range_map (f : Nat → ℚ) {n c : Nat} (hc : c < n) :
    ((List.range n).map f).getD c 0 = f c := by
  simp [List.getD_eq_getElem?_getD, List.getElem?_map, List.getElem?_range, hc]

/-- In-bounds value of the normalized pivot row. -/
lemma normalizedPivotRow_getD (m : Mat) (lr ec colCount : Nat) {c : Nat}
    (hc : c < colCount) :
    (normalizedPivotRow m lr ec colCount).getD c 0 =
      getCell m lr c / getCell m lr ec :=
  getD_range_map _ hc

/-- `elimStep` preserves the number of rows. -/
lemma elimStep_length (lr ec colCount : Nat) (npr : List ℚ) (acc : Mat) (r : Nat) :
    (elimStep lr ec colCount npr acc r).length = acc.length := by
  unfold elimStep
  by_cases h1 : r = lr
  · rw [if_pos h1]
  · rw [if_neg h1]
    by_cases h2 : tol < |getCell acc r ec|
    · rw [if_pos h2, List.length_set]
    · rw [if_neg h2]

/-- `elimStep` touches only its own row. -/
lemma elimStep_getD_ne (lr ec colCount : Nat) (npr : List ℚ) (acc : Mat)
    {r r' : Nat} (h : r' ≠ r) :
    (elimStep lr ec colCount npr acc r).getD r' [] = acc.getD r' [] := by
  unfold elimStep
  by_cases h1 : r = lr
  · rw [if_pos h1]
  · rw [if_neg h1]
    by_cases h2 : tol < |getCell acc r ec|
    · rw [if_pos h2, getD_set_ne _ (Ne.symm h)]
    · rw [if_neg h2]

/-- The elimination fold preserves the number of rows. -/
lemma elimFold_length (lr ec colCount : Nat) (npr : List ℚ) :
    ∀ (l : List Nat) (mm : Mat),
      (l.foldl (elimStep lr ec colCount npr) mm).length = mm.length := by
  intro l
  induction l with
  | nil => intro mm; rfl
  | cons x l ih => intro mm; rw [List.foldl_cons, ih, elimStep_length]

/-- Rows outside the processed index list are untouched by the fold. -/
lemma elimFold_notmem (lr ec colCount : Nat) (npr : List ℚ) :
    ∀ (l : List Nat) (mm : Mat) (r : Nat), r ∉ l →
      (l.foldl (elimStep lr ec colCount npr) mm).getD r [] = mm.getD r [] := by
  intro l
  induction l with
  | nil => intro mm r _; rfl
  | cons x l ih =>
    intro mm r hr
    have hr1 : r ∉ l := fun hm => hr (List.mem_cons_of_mem x hm)
    have hr2 : r ≠ x := fun he => hr (by rw [he]; exact List.mem_cons_self x l)
    rw [List.foldl_cons, ih _ r hr1, elimStep_getD_ne _ _ _ _ _ hr2]

/-- `elimStep` on a row depends only on that row's values (and the number
of rows of the matrix). -/
lemma elimStep_getD_self_congr (lr ec colCount : Nat) (npr : List ℚ)
    (acc acc' : Mat) (r : Nat) (hrow : acc.getD r [] = acc'.getD r [])
    (hlen : acc.length = acc'.length) :
    (elimStep lr ec colCount npr acc r).getD r [] =
      (elimStep lr ec colCount npr acc' r).getD r [] := by
  have hcell : ∀ c, getCell acc r c = getCell acc' r c := by
    intro c; unfold getCell; rw [hrow]
  unfold elimStep
  by_cases h1 : r = lr
  · rw [if_pos h1, if_pos h1, hrow]
  · rw [if_neg h1, if_neg h1]
    by_cases h2 : tol < |getCell acc r ec|
    · rw [if_pos h2, if_pos (by rw [← hcell]; exact h2)]
      have hv : ((List.range colCount).map
            (fun c => getCell acc r c - getCell acc r ec * npr.getD c 0)) =
          ((List.range colCount).map
            (fun c => getCell acc' r c - getCell acc' r ec * npr.getD c 0)) := by
        apply List.map_congr_left
        intro c _
        rw [hcell, hcell]
      rw [hv]
      by_cases h3 : r < acc.length
      · rw [getD_set_self _ h3, getD_set_self _ (hlen ▸ h3)]
      · have h3' : acc.length ≤ r := le_of_not_lt h3
        rw [List.getD_eq_default _ _ (by rw [List.length_set]; exact h3'),
          List.getD_eq_default _ _ (by rw [List.length_set, ← hlen]; exact h3')]
    · rw [if_neg h2, if_neg (by rw [← hcell]; exact h2), hrow]

/-- A processed row of the elimination fold equals `elimStep` applied to
the matrix the fold started from (each row is processed exactly once and
reads only itself). -/
lemma elimFold_mem (lr ec colCount : Nat) (npr : List ℚ) :
    ∀ (l : List Nat) (mm : Mat) (r : Nat), l.Nodup → r ∈ l →
      (l.foldl (elimStep lr ec colCount npr) mm).getD r [] =
        (elimStep lr ec colCount npr mm r).getD r [] := by
  intro l
  induction l with
  | nil => intro mm r _ hr; cases hr
  | cons x l ih =>
    intro mm r hnd hr
    rw [List.foldl_cons]
    rcases List.mem_cons.mp hr with rfl | hr'
    · exact elimFold_notmem lr ec colCount npr l _ r (List.nodup_cons.mp hnd).1
    · have hne : r ≠ x := by
        rintro rfl
        exact (List.nodup_cons.mp hnd).1 hr'
      rw [ih _ r (List.nodup_cons.mp hnd).2 hr']
      exact elimStep_getD_self_congr lr ec colCount npr _ _ r
        (elimStep_getD_ne _ _ _ _ _ hne) (elimStep_length _ _ _ _ _ _)

/-- `pivotOp` preserves the number of rows. -/
lemma pivotOp_length (m : Mat) (lr ec colCount : Nat) :
    (pivotOp m lr ec colCount).length = m.length := by
  unfold pivotOp
  rw [elimFold_length, List.length_set]

/-- Cell-level description of the pivot operation: the leaving row is
divided by the pivot value, every other row with a non-negligible factor
has `factor × (normalized pivot row)` subtracted, rows with negligible
factor are untouched. -/
lemma pivotOp_cell (m : Mat) (lr ec colCount : Nat) (hlr : lr < m.length)
    {r : Nat} (hr : r < m.length) {c : Nat} (hc : c < colCount) :
    getCell (pivotOp m lr ec colCount) r c =
      if r = lr then getCell m lr c / getCell m lr ec
      else if tol < |getCell m r ec| then
        getCell m r c - getCell m r ec * (getCell m lr c / getCell m lr ec)
      else getCell m r c := by
  have hmem : r ∈ List.range (m.set lr (normalizedPivotRow m lr ec colCount)).length := by
    rw [List.mem_range, List.length_set]
    exact hr
  have hstep : getCell (pivotOp m lr ec colCount) r c =
      ((elimStep lr ec colCount (normalizedPivotRow m lr ec colCount)
        (m.set lr (normalizedPivotRow m lr ec colCount)) r).getD r []).getD c 0 := by
    unfold pivotOp getCell
    rw [elimFold_mem lr ec colCount _ _ _ r (List.nodup_range _) hmem]
  rw [hstep]
  unfold elimStep
  by_cases h1 : r = lr
  · rw [if_pos h1, if_pos h1]
    subst h1
    rw [getD_set_self _ hlr]
    exact normalizedPivotRow_getD m r ec colCount hc
  · have hrow1 : (m.set lr (normalizedPivotRow m lr ec colCount)).getD r [] =
        m.getD r [] := getD_set_ne _ (fun hh => h1 hh.symm) _ _
    have hcell1 : ∀ c', getCell (m.set lr (normalizedPivotRow m lr ec colCount)) r c' =
        getCell m r c' := by
      intro c'; unfold getCell; rw [hrow1]
    rw [if_neg h1, if_neg h1]
    by_cases h2 : tol < |getCell m r ec|
    · rw [if_pos (by rw [hcell1]; exact h2), if_pos h2]
      have hrlen : r < (m.set lr (normalizedPivotRow m lr ec colCount)).length := by
        rw [List.length_set]; exact hr
      rw [getD_set_self _ hrlen, getD_range_map _ hc, hcell1, hcell1,
        normalizedPivotRow_getD m lr ec colCount hc]
    · rw [if_neg (by rw [hcell1]; exact h2), if_neg h2]
      unfold getCell
      rw [hrow1]

/-- The canonical-form invariant of a tableau with respect to a basis:
each basis column is an exact unit column (1 in its own row, 0 in every
other row, the objective row included). -/
def IsCanonical (m : Mat) (basis : List Nat) : Prop :=
  ∀ i, i < basis.length →
    getCell m (i + 1) (basis.getD i 0) = 1 ∧
    ∀ r, r < m.length → r ≠ i + 1 → getCell m r (basis.getD i 0) = 0

instance IsCanonical.instDecidable (m : Mat) (basis : List Nat) :
    Decidable (IsCanonical m basis) := by
  unfold IsCanonical
  infer_instance

/--
**C3 (amended).** A pivot performed from a tableau satisfying the
canonical-form invariant exactly re-establishes the invariant exactly for
the updated basis, **provided** every row's entering-column entry is
either exactly zero or of absolute value above the elimination threshold
`1e-9`.  (Without that proviso the in-place elimination is skipped on tiny
nonzero entries and the residue can later be amplified beyond the `1e-9`
tolerance, as the counterexample shows.)
-/
theorem C3_canonical_amended (m : Mat) (basis : List Nat) (lr ec colCount : Nat)
    (hb : basis.length + 1 = m.length)
    (hbb : ∀ i, i < basis.length → basis.getD i 0 < colCount)
    (hlr1 : 1 ≤ lr) (hlr2 : lr < m.length)
    (hec : ec < colCount)
    (hcanon : IsCanonical m basis)
    (hclean : ∀ r, r < m.length → getCell m r ec = 0 ∨ tol < |getCell m r ec|)
    (hpv : tol < getCell m lr ec) :
    IsCanonical (pivotOp m lr ec colCount) (basis.set (lr - 1) ec) := by
  have htolpos : (0 : ℚ) < tol := by norm_num [tol]
  have hpv0 : getCell m lr ec ≠ 0 := ne_of_gt (lt_trans htolpos hpv)
  have hml := pivotOp_length m lr ec colCount
  intro i hi
  rw [List.length_set] at hi
  by_cases hcase : i = lr - 1
  · subst hcase
    have hbl : lr - 1 < basis.length := by omega
    rw [getD_set_self _ hbl]
    have hlr' : lr - 1 + 1 = lr := by omega
    rw [hlr']
    constructor
    · rw [pivotOp_cell m lr ec colCount hlr2 hlr2 hec, if_pos rfl]
      exact div_self hpv0
    · intro r hrm hrne
      rw [hml] at hrm
      rw [pivotOp_cell m lr ec colCount hlr2 hrm hec, if_neg hrne]
      by_cases h2 : tol < |getCell m r ec|
      · rw [if_pos h2, div_self hpv0, mul_one, sub_self]
      · rw [if_neg h2]
        rcases hclean r hrm with h0 | hcon
        · exact h0
        · exact absurd hcon h2
  · rw [getD_set_ne _ (fun hh => hcase hh.symm) _ _]
    obtain ⟨hone, hzero⟩ := hcanon i hi
    have hb_lt : basis.getD i 0 < colCount := hbb i hi
    have hi1 : i + 1 < m.length := by omega
    have hi1lr : i + 1 ≠ lr := by omega
    have hlrb : getCell m lr (basis.getD i 0) = 0 :=
      hzero lr hlr2 (fun hh => hi1lr hh.symm)
    constructor
    · rw [pivotOp_cell m lr ec colCount hlr2 hi1 hb_lt, if_neg hi1lr]
      by_cases h2 : tol < |getCell m (i + 1) ec|
      · rw [if_pos h2, hlrb, zero_div, mul_zero, sub_zero]
        exact hone
      · rw [if_neg h2]
        exact hone
    · intro r hrm hrne
      rw [hml] at hrm
      rw [pivotOp_cell m lr ec colCount hlr2 hrm hb_lt]
      by_cases hrlr : r = lr
      · rw [if_pos hrlr]
        subst hrlr
        rw [hlrb, zero_div]
      · rw [if_neg hrlr]
        have hz := hzero r hrm hrne
        by_cases h2 : tol < |getCell m r ec|
        · rw [if_pos h2, hlrb, zero_div, mul_zero, sub_zero]
          exact hz
        · rw [if_neg h2]
          exact hz

/-- Witness for the amended C3 at a concrete pivot: pivoting the tableau
`[[1, -1, 0, 0], [0, 1, 1, 5]]` (basis `[2]`) at row 1, column 1
re-establishes the exact canonical form for basis `[1]`. -/
theorem C3_canonical_amended_witness :
    tol < getCell [[1, -1, 0, 0], [0, 1, 1, 5]] 1 1 ∧
    IsCanonical (pivotOp [[1, -1, 0, 0], [0, 1, 1, 5]] 1 1 4) ([2].set 0 1) :=
  ⟨by decide,
   C3_canonical_amended [[1, -1, 0, 0], [0, 1, 1, 5]] [2] 1 1 4
     (by decide) (by decide) (by decide) (by decide) (by decide)
     (by decide) (by decide) (by decide)⟩

/-- A crafted input on which the engine leaves a residue: the constraint
coefficient `1e-9` is skipped by the elimination threshold during the
first pivot and amplified by the second. -/
def c3Constraints : List Constraint :=
  [{ id := "c1", coefficients := [1, -100], relation := Relation.le, rhs := 100 },
   { id := "c2", coefficients := [1/1000000000, 1], relation := Relation.le, rhs := 1 }]

/-- The engine run on the residue-amplifying input. -/
def c3Run : Status × EngineState :=
  runSimplexIterations
    (buildInitialTableau OptimizationType.MAX [1, 1/2] c3Constraints).1
    (buildHeaders 2 c3Constraints)
    (buildInitialTableau OptimizationType.MAX [1, 1/2] c3Constraints).2 [] 0

set_option maxRecDepth 100000 in
/--
Counterexample to **C3** as stated: after the second pivot of this run
(recorded by the terminal step, the third recorded step), the tableau
entry at `(1, basis[1])` is `1 + 1e-7` — farther than `1e-9` from 1 —
and the objective row's entry at the same basis column is `1.005e-7` —
farther than `1e-9` from 0.
-/
theorem C3_counterexample :
    c3Run.1 = Status.OPTIMAL ∧
    c3Run.2.steps.length = 3 ∧
    (c3Run.2.steps.getD 1 dummyStep).pivotCol = some 2 ∧
    c3Run.2.basis = [1, 2] ∧
    getCell c3Run.2.matrix 1 (c3Run.2.basis.getD 0 0) = 10000001 / 10000000 ∧
    tol < |getCell c3Run.2.matrix 1 (c3Run.2.basis.getD 0 0) - 1| ∧
    tol < |getCell c3Run.2.matrix 0 (c3Run.2.basis.getD 0 0)| := by
  decide

/-! ## Trace-step aliasing (C4) -/

/-- A one-pivot input: maximize `x1` under `x1 <= 5`. -/
def c4Constraints : List Constraint :=
  [{ id := "c1", coefficients := [1], relation := Relation.le, rhs := 5 }]

/-- The initial tableau of the one-pivot input. -/
def c4Initial : Mat := (buildInitialTableau OptimizationType.MAX [1] c4Constraints).1

/-- The engine run on the one-pivot input. -/
def c4Run : Status × EngineState :=
  runSimplexIterations c4Initial (buildHeaders 1 c4Constraints)
    (buildInitialTableau OptimizationType.MAX [1] c4Constraints).2 [] 0

set_option maxRecDepth 100000 in
/--
**C4 is violated by the code (code bug).**  The first trace step is
created before the only pivot, when the objective row holds
`[1, -1, 0, 0]`; but the step stores the live row (reference `0`), so
reading its coefficients after the run yields the final row
`[1, 0, 1, 5]`.  The step's own `rhs` field — which *is* copied as a
scalar — still holds the creation-time value `0`, contradicting the
RHS entry `5` of the aliased coefficient row it sits next to.
-/
theorem C4_alias_code_bug :
    c4Run.1 = Status.OPTIMAL ∧
    c4Run.2.steps.length = 2 ∧
    ((c4Run.2.steps.getD 0 dummyStep).tableau.getD 0 ⟨"", 0, 0⟩).coefficients = 0 ∧
    ((c4Run.2.steps.getD 0 dummyStep).tableau.getD 0 ⟨"", 0, 0⟩).rhs = 0 ∧
    c4Initial.getD 0 [] = [1, -1, 0, 0] ∧
    readRowRef c4Run.2.matrix
      ((c4Run.2.steps.getD 0 dummyStep).tableau.getD 0 ⟨"", 0, 0⟩).coefficients =
      [1, 0, 1, 5] ∧
    readRowRef c4Run.2.matrix
        ((c4Run.2.steps.getD 0 dummyStep).tableau.getD 0 ⟨"", 0, 0⟩).coefficients ≠
      c4Initial.getD 0 [] ∧
    (readRowRef c4Run.2.matrix
        ((c4Run.2.steps.getD 0 dummyStep).tableau.getD 0 ⟨"", 0, 0⟩).coefficients).getD 3 0 ≠
      ((c4Run.2.steps.getD 0 dummyStep).tableau.getD 0 ⟨"", 0, 0⟩).rhs := by
  decide

/-! ## Orchestration (C5, C6) -/

/-- The engine reports only `OPTIMAL` or `UNBOUNDED`. -/
lemma runSimplexIterations_status (m : Mat) (headers : List String)
    (basis : List Nat) (steps : List TableauStep) (phase : Nat) :
    (runSimplexIterations m headers basis steps phase).1 = Status.OPTIMAL ∨
      (runSimplexIterations m headers basis steps phase).1 = Status.UNBOUNDED :=
  runSimplexAux_status headers phase ((m.getD 0 []).length) m.length
    ((m.getD 0 []).length - 1) 50 0 ⟨m, basis, steps⟩

/--
**C5.** For `TWO_PHASE` with at least one artificial variable:
a phase-1 `UNBOUNDED` makes solve return `UNBOUNDED`; otherwise, a phase-1
objective RHS of magnitude above `1e-5` makes solve return `INFEASIBLE`
with the accumulated trace; otherwise the true objective row is restored
and re-zeroed against the current basis (`phase2Restore`), the engine runs
again as phase 2, a non-`OPTIMAL` phase-2 status is returned as-is, and an
`OPTIMAL` phase-2 result yields the extraction result.
-/
theorem C5_two_phase (ty : OptimizationType) (objCoeffs : List ℚ)
    (constraints : List Constraint)
    (harts : artificialVars constraints ≠ []) :
    let headers := buildHeaders objCoeffs.length constraints
    let rhsCol := headers.length - 1
    let built := buildInitialTableau ty objCoeffs constraints
    let r1 := runSimplexIterations (phase1Setup headers built.1) headers built.2 [] 1
    (r1.1 = Status.UNBOUNDED →
      solveLinearProgram SolverMethod.TWO_PHASE ty objCoeffs constraints =
        { steps := r1.2.steps, finalValues := [], zValue := 0,
          status := Status.UNBOUNDED, errorMessage := none }) ∧
    (r1.1 ≠ Status.UNBOUNDED → feasTol < |getCell r1.2.matrix 0 rhsCol| →
      solveLinearProgram SolverMethod.TWO_PHASE ty objCoeffs constraints =
        { steps := r1.2.steps, finalValues := [], zValue := 0,
          status := Status.INFEASIBLE, errorMessage := none }) ∧
    (r1.1 ≠ Status.UNBOUNDED → ¬ feasTol < |getCell r1.2.matrix 0 rhsCol| →
      let r2 := runSimplexIterations
        (phase2Restore r1.2.matrix (built.1.getD 0 []) r1.2.basis headers.length)
        headers r1.2.basis r1.2.steps 2
      (r2.1 ≠ Status.OPTIMAL →
        solveLinearProgram SolverMethod.TWO_PHASE ty objCoeffs constraints =
          { steps := r2.2.steps, finalValues := [], zValue := 0,
            status := r2.1, errorMessage := none }) ∧
      (r2.1 = Status.OPTIMAL →
        solveLinearProgram SolverMethod.TWO_PHASE ty objCoeffs constraints =
          optimalResult ty headers r2.2 rhsCol)) := by
  dsimp only
  refine ⟨?_, ?_, ?_⟩
  · intro h1
    simp only [solveLinearProgram]
    rw [if_pos ⟨by trivial, harts⟩, if_pos h1]
  · intro h1 h2
    simp only [solveLinearProgram]
    rw [if_pos ⟨by trivial, harts⟩, if_neg h1, if_pos h2]
  · intro h1 h2
    refine ⟨?_, ?_⟩
    · intro h3
      simp only [solveLinearProgram]
      rw [if_pos ⟨by trivial, harts⟩, if_neg h1, if_neg h2, if_pos h3]
    · intro h3
      simp only [solveLinearProgram]
      rw [if_pos ⟨by trivial, harts⟩, if_neg h1, if_neg h2,
        if_neg (not_not_intro h3)]

/-- A feasible two-phase input: maximize `x1` under `x1 >= 1`, `x1 <= 2`. -/
def tpConstraints : List Constraint :=
  [{ id := "c1", coefficients := [1], relation := Relation.ge, rhs := 1 },
   { id := "c2", coefficients := [1], relation := Relation.le, rhs := 2 }]

set_option maxRecDepth 100000 in
/-- Witness for C5: on a concrete feasible two-phase input every branch
hypothesis of the optimal path holds and solve yields the extraction
result (status `OPTIMAL`). -/
theorem C5_two_phase_witness :
    artificialVars tpConstraints ≠ [] ∧
    (solveLinearProgram SolverMethod.TWO_PHASE OptimizationType.MAX [1]
      tpConstraints).status = Status.OPTIMAL := by
  refine ⟨by decide, ?_⟩
  have h := C5_two_phase OptimizationType.MAX [1] tpConstraints (by decide)
  have h2 := (h.2.2 (by decide) (by decide)).2 (by decide)
  rw [h2]
  rfl

/-- Existential reading of the Big-M residual check: some basis row is an
artificial variable (name begins with `a`) whose RHS value exceeds `1e-5`. -/
lemma artInBasisCheck_iff (headers : List String) (basis : List Nat) (m : Mat)
    (rhsCol : Nat) :
    artInBasisCheck headers basis m rhsCol = true ↔
      ∃ i, i < basis.length ∧
        startsWithChar (headers.getD (basis.getD i 0) "") 'a' = true ∧
        feasTol < getCell m (i + 1) rhsCol := by
  unfold artInBasisCheck
  rw [List.any_eq_true]
  constructor
  · rintro ⟨p, hp, hf⟩
    rw [List.mem_enum_iff_getElem?] at hp
    have hlt : p.1 < basis.length := (List.getElem?_eq_some.mp hp).1
    have hval : basis.getD p.1 0 = p.2 := by
      rw [List.getD_eq_getElem?_getD, hp]; rfl
    rw [Bool.and_eq_true, decide_eq_true_eq] at hf
    exact ⟨p.1, hlt, by rw [hval]; exact hf.1, hf.2⟩
  · rintro ⟨i, hi, ha, hv⟩
    refine ⟨(i, basis.getD i 0), ?_, ?_⟩
    · rw [List.mem_enum_iff_getElem?]
      rw [List.getElem?_eq_getElem hi, List.getD_eq_getElem?_getD,
        List.getElem?_eq_getElem hi]
      rfl
    · rw [Bool.and_eq_true, decide_eq_true_eq]
      exact ⟨ha, hv⟩

/--
**C6.** For `BIG_M` with at least one artificial variable, when the
engine returns `OPTIMAL`: if some basis entry names an artificial
variable (header beginning with `a`) whose row RHS exceeds `1e-5`, solve
returns `INFEASIBLE`; if no such entry exists the status stays `OPTIMAL`
(the extraction result); and the check is exactly that existential
condition.
-/
theorem C6_bigM_residual_check (ty : OptimizationType) (objCoeffs : List ℚ)
    (constraints : List Constraint)
    (harts : artificialVars constraints ≠ []) :
    let headers := buildHeaders objCoeffs.length constraints
    let rhsCol := headers.length - 1
    let built := buildInitialTableau ty objCoeffs constraints
    let rM := runSimplexIterations (bigMSetup headers built.1) headers built.2 [] 0
    rM.1 = Status.OPTIMAL →
      ((artInBasisCheck headers rM.2.basis rM.2.matrix rhsCol = true →
          solveLinearProgram SolverMethod.BIG_M ty objCoeffs constraints =
            { steps := rM.2.steps, finalValues := [], zValue := 0,
              status := Status.INFEASIBLE, errorMessage := none }) ∧
        (artInBasisCheck headers rM.2.basis rM.2.matrix rhsCol = false →
          solveLinearProgram SolverMethod.BIG_M ty objCoeffs constraints =
            optimalResult ty headers rM.2 rhsCol) ∧
        (artInBasisCheck headers rM.2.basis rM.2.matrix rhsCol = true ↔
          ∃ i, i < rM.2.basis.length ∧
            startsWithChar (headers.getD (rM.2.basis.getD i 0) "") 'a' = true ∧
            feasTol < getCell rM.2.matrix (i + 1) rhsCol)) := by
  dsimp only
  intro hopt
  refine ⟨?_, ?_, artInBasisCheck_iff _ _ _ _⟩
  · intro hart
    simp only [solveLinearProgram]
    rw [if_neg (by rintro ⟨h, -⟩; exact absurd h (by decide)),
      if_pos ⟨by trivial, harts⟩, if_neg (not_not_intro hopt), if_pos hart]
  · intro hart
    simp only [solveLinearProgram]
    rw [if_neg (by rintro ⟨h, -⟩; exact absurd h (by decide)),
      if_pos ⟨by trivial, harts⟩, if_neg (not_not_intro hopt),
      if_neg (by rw [hart]; decide)]

/-- An infeasible input: `x1 >= 5` together with `x1 <= 2`. -/
def infConstraints : List Constraint :=
  [{ id := "c1", coefficients := [1], relation := Relation.ge, rhs := 5 },
   { id := "c2", coefficients := [1], relation := Relation.le, rhs := 2 }]

set_option maxRecDepth 100000 in
/-- Witness for C6: on the infeasible input the Big-M engine reports
`OPTIMAL`, an artificial variable remains in the basis above `1e-5`, and
solve overrides the status to `INFEASIBLE`. -/
theorem C6_bigM_residual_check_witness :
    artificialVars infConstraints ≠ [] ∧
    (solveLinearProgram SolverMethod.BIG_M OptimizationType.MAX [1]
      infConstraints).status = Status.INFEASIBLE := by
  refine ⟨by decide, ?_⟩
  have h := C6_bigM_residual_check OptimizationType.MAX [1] infConstraints
    (by decide)
  have h2 := (h (by decide)).1 (by decide)
  rw [h2]

/-! ## Totality and non-optimal results (C9, C10) -/

section SolveCases

attribute [local irreducible] runSimplexIterations buildInitialTableau
  buildHeaders phase1Setup phase2Restore bigMSetup artInBasisCheck getCell
  artificialVars

/-- Every solve returns either the `OPTIMAL` extraction result, or a
non-optimal result (`INFEASIBLE` or `UNBOUNDED`) carrying an empty value
mapping and objective value `0`. -/
lemma solve_cases (method : SolverMethod) (ty : OptimizationType)
    (objCoeffs : List ℚ) (constraints : List Constraint) :
    (solveLinearProgram method ty objCoeffs constraints).status =
        Status.OPTIMAL ∨
      (((solveLinearProgram method ty objCoeffs constraints).status =
            Status.INFEASIBLE ∨
          (solveLinearProgram method ty objCoeffs constraints).status =
            Status.UNBOUNDED) ∧
        (solveLinearProgram method ty objCoeffs constraints).finalValues = [] ∧
        (solveLinearProgram method ty objCoeffs constraints).zValue = 0) := by
  simp only [solveLinearProgram]
  set H := buildHeaders objCoeffs.length constraints with hH
  set B := buildInitialTableau ty objCoeffs constraints with hB
  by_cases hc1 : method = SolverMethod.TWO_PHASE ∧ artificialVars constraints ≠ []
  · rw [if_pos hc1]
    set r1 := runSimplexIterations (phase1Setup H B.1) H B.2 [] 1 with hr1
    by_cases h1 : r1.1 = Status.UNBOUNDED
    · rw [if_pos h1]
      exact Or.inr ⟨Or.inr rfl, rfl, rfl⟩
    · rw [if_neg h1]
      by_cases h2 : feasTol < |getCell r1.2.matrix 0 (H.length - 1)|
      · rw [if_pos h2]
        exact Or.inr ⟨Or.inl rfl, rfl, rfl⟩
      · rw [if_neg h2]
        set r2 := runSimplexIterations
          (phase2Restore r1.2.matrix (B.1.getD 0 []) r1.2.basis H.length)
          H r1.2.basis r1.2.steps 2 with hr2
        by_cases h3 : r2.1 ≠ Status.OPTIMAL
        · rw [if_pos h3]
          rcases runSimplexIterations_status
              (phase2Restore r1.2.matrix (B.1.getD 0 []) r1.2.basis H.length)
              H r1.2.basis r1.2.steps 2 with ho | hu
          · rw [← hr2] at ho
            exact absurd ho h3
          · rw [← hr2] at hu
            exact Or.inr ⟨Or.inr hu, rfl, rfl⟩
        · rw [if_neg h3]
          exact Or.inl rfl
  · rw [if_neg hc1]
    by_cases hc2 : method = SolverMethod.BIG_M ∧ artificialVars constraints ≠ []
    · rw [if_pos hc2]
      set rM := runSimplexIterations (bigMSetup H B.1) H B.2 [] 0 with hrM
      by_cases h1 : rM.1 ≠ Status.OPTIMAL
      · rw [if_pos h1]
        rcases runSimplexIterations_status (bigMSetup H B.1) H B.2 [] 0 with ho | hu
        · rw [← hrM] at ho
          exact absurd ho h1
        · rw [← hrM] at hu
          exact Or.inr ⟨Or.inr hu, rfl, rfl⟩
      · rw [if_neg h1]
        by_cases h2 : artInBasisCheck H rM.2.basis rM.2.matrix (H.length - 1) = true
        · rw [if_pos h2]
          exact Or.inr ⟨Or.inl rfl, rfl, rfl⟩
        · rw [if_neg h2]
          exact Or.inl rfl
    · rw [if_neg hc2]
      set rS := runSimplexIterations B.1 H B.2 [] 0 with hrS
      by_cases h1 : rS.1 ≠ Status.OPTIMAL
      · rw [if_pos h1]
        rcases runSimplexIterations_status B.1 H B.2 [] 0 with ho | hu
        · rw [← hrS] at ho
          exact absurd ho h1
        · rw [← hrS] at hu
          exact Or.inr ⟨Or.inr hu, rfl, rfl⟩
      · rw [if_neg h1]
        exact Or.inl rfl

end SolveCases

/--
**C9.** `solveLinearProgram` is a total function that never raises: for
every input its status is exactly one of `OPTIMAL`, `INFEASIBLE`,
`UNBOUNDED`, `ERROR` (in the embedding, the `try` body never throws, so
`ERROR` is in fact never produced); and the `catch` handler's value
(`errorResult`, source line 297) carries status `ERROR`, the generic
message, and an empty trace and value mapping.
-/
theorem C9_never_raises :
    (∀ (method : SolverMethod) (ty : OptimizationType) (objCoeffs : List ℚ)
        (constraints : List Constraint),
      (solveLinearProgram method ty objCoeffs constraints).status =
          Status.OPTIMAL ∨
        (solveLinearProgram method ty objCoeffs constraints).status =
          Status.INFEASIBLE ∨
        (solveLinearProgram method ty objCoeffs constraints).status =
          Status.UNBOUNDED) ∧
    errorResult.status = Status.ERROR ∧ errorResult.steps = [] ∧
    errorResult.finalValues = [] ∧
    errorResult.errorMessage = some "Error interno de cálculo" := by
  refine ⟨?_, rfl, rfl, rfl, rfl⟩
  intro method ty objCoeffs constraints
  rcases solve_cases method ty objCoeffs constraints with h | ⟨h, -⟩
  · exact Or.inl h
  · exact Or.inr h

/--
**C10.** Whenever `solveLinearProgram` returns a status other than
`OPTIMAL`, the returned `finalValues` mapping is empty and `zValue` is
`0`.
-/
theorem C10_nonoptimal_empty (method : SolverMethod) (ty : OptimizationType)
    (objCoeffs : List ℚ) (constraints : List Constraint)
    (h : (solveLinearProgram method ty objCoeffs constraints).status ≠
      Status.OPTIMAL) :
    (solveLinearProgram method ty objCoeffs constraints).finalValues = [] ∧
    (solveLinearProgram method ty objCoeffs constraints).zValue = 0 :=
  ((solve_cases method ty objCoeffs constraints).resolve_left h).2

/-- An unbounded input: maximize `x1` under `-x1 <= 1`. -/
def ubConstraints : List Constraint :=
  [{ id := "c1", coefficients := [-1], relation := Relation.le, rhs := 1 }]

/-- Witness for C10 at a concrete unbounded input. -/
theorem C10_nonoptimal_empty_witness :
    (solveLinearProgram SolverMethod.SIMPLEX OptimizationType.MAX [1]
        ubConstraints).status ≠ Status.OPTIMAL ∧
    (solveLinearProgram SolverMethod.SIMPLEX OptimizationType.MAX [1]
        ubConstraints).finalValues = [] ∧
    (solveLinearProgram SolverMethod.SIMPLEX OptimizationType.MAX [1]
        ubConstraints).zValue = 0 :=
  ⟨by decide,
   C10_nonoptimal_empty SolverMethod.SIMPLEX OptimizationType.MAX [1]
     ubConstraints (by decide)⟩

end LP
